import Mathlib

/-!
Verification of the spaced-repetition core of the just_remember
application (src/src/models.py and src/src/main.py), shallowly embedded
in Lean.  Timestamps are modelled as natural numbers counting hours, so
that the Python expression datetime.now() + timedelta(hours=h) becomes
now + h.  The SQLite table of grammar entries is modelled as a list of
entries held in ascending-id order (the order every SELECT ... ORDER BY
id returns); SQL queries become list operations on that representation.
-/

namespace JustRemember

/-- SRS stages, in the declaration order of the Python enum SRSStage
(models.py lines 7-17); list(SRSStage) enumerates them in this order. -/
inductive SRSStage where
  | APPRENTICE_1
  | APPRENTICE_2
  | APPRENTICE_3
  | APPRENTICE_4
  | GURU_1
  | GURU_2
  | MASTER
  | ENLIGHTENED
  | BURNED
deriving DecidableEq, Repr, Fintype

/-- The string value of each SRSStage member (models.py lines 9-17). -/
def SRSStage.value : SRSStage → String
  | .APPRENTICE_1 => "Apprentice I"
  | .APPRENTICE_2 => "Apprentice II"
  | .APPRENTICE_3 => "Apprentice III"
  | .APPRENTICE_4 => "Apprentice IV"
  | .GURU_1 => "Guru I"
  | .GURU_2 => "Guru II"
  | .MASTER => "Master"
  | .ENLIGHTENED => "Enlightened"
  | .BURNED => "Burned"

/-- Lesson statuses (models.py lines 19-23). -/
inductive LessonStatus where
  | NOT_STARTED
  | AVAILABLE
  | IN_PROGRESS
deriving DecidableEq, Repr, Fintype

/-- The string value of each LessonStatus member (models.py lines 21-23). -/
def LessonStatus.value : LessonStatus → String
  | .NOT_STARTED => "Not Started"
  | .AVAILABLE => "Available"
  | .IN_PROGRESS => "In Progress"

/-- The dataclass GrammarEntry (models.py lines 25-44).  The id is a
plain Nat here (the database always supplies one for stored rows);
timestamps are hours as Nat, absent timestamps are none. -/
structure GrammarEntry where
  id : Nat := 0
  grammar : String := ""
  grammar_kana : String := ""
  usage : String := ""
  meaning : String := ""
  example1_ja : String := ""
  example1_en : String := ""
  example2_ja : String := ""
  example2_en : String := ""
  note : String := ""
  learned_date : Option Nat := none
  srs_stage : SRSStage := .APPRENTICE_1
  lesson_status : LessonStatus := .NOT_STARTED
  next_review : Option Nat := none
  correct_answers : Nat := 0
  incorrect_answers : Nat := 0
  last_reviewed : Option Nat := none
deriving DecidableEq, Repr

/-- SRSManager.INTERVALS (models.py lines 50-60): review interval in
hours for each stage, none for BURNED. -/
def INTERVALS : SRSStage → Option Nat
  | .APPRENTICE_1 => some 4
  | .APPRENTICE_2 => some 8
  | .APPRENTICE_3 => some 24
  | .APPRENTICE_4 => some 48
  | .GURU_1 => some 168
  | .GURU_2 => some 336
  | .MASTER => some 720
  | .ENLIGHTENED => some 2880
  | .BURNED => none

/-- list(SRSStage): the members in declaration order. -/
def stageList : List SRSStage :=
  [.APPRENTICE_1, .APPRENTICE_2, .APPRENTICE_3, .APPRENTICE_4,
   .GURU_1, .GURU_2, .MASTER, .ENLIGHTENED, .BURNED]

/-- Position of a stage in the declaration order (stages.index(s)). -/
def stageIdx (s : SRSStage) : Nat := stageList.indexOf s

/-- SRSManager.get_next_stage (models.py lines 62-75). -/
def get_next_stage (current_stage : SRSStage) (correct : Bool) : SRSStage :=
  let stages := stageList
  let current_index := stages.indexOf current_stage
  if correct then
    if current_index < stages.length - 1 then
      stages.getD (current_index + 1) current_stage
    else
      current_stage
  else
    SRSStage.APPRENTICE_1

/-- SRSManager.calculate_next_review (models.py lines 77-84), with the
wall clock passed in explicitly. -/
def calculate_next_review (stage : SRSStage) (now : Nat) : Option Nat :=
  if stage = SRSStage.BURNED then
    none
  else
    match INTERVALS stage with
    | some interval_hours => some (now + interval_hours)
    | none => none

/-- SRSManager.update_progress (models.py lines 86-103), with the wall
clock passed in explicitly (the source reads datetime.now() inside the
operation; the operation is modelled as atomic at a single instant). -/
def update_progress (entry : GrammarEntry) (correct : Bool) (now : Nat) :
    GrammarEntry :=
  let entry := { entry with last_reviewed := some now }
  let entry :=
    if correct then
      { entry with correct_answers := entry.correct_answers + 1 }
    else
      { entry with incorrect_answers := entry.incorrect_answers + 1 }
  let entry :=
    if entry.lesson_status = LessonStatus.AVAILABLE then
      { entry with lesson_status := LessonStatus.IN_PROGRESS }
    else
      entry
  let new_stage := get_next_stage entry.srs_stage correct
  { entry with
      srs_stage := new_stage,
      next_review := calculate_next_review new_stage now }

/-- GrammarDatabase.update_entry (models.py lines 184-205): the SQL
UPDATE ... WHERE id=? replaces every stored row whose id matches; when
no row matches it affects nothing and raises no error. -/
def update_entry (store : List GrammarEntry) (entry : GrammarEntry) :
    List GrammarEntry :=
  store.map fun x => if x.id = entry.id then entry else x

/-- The WHERE clause of GrammarDatabase.get_due_reviews (models.py line
228): next_review <= now AND srs_stage != 'Burned'.  A NULL
next_review fails the SQL comparison and is excluded. -/
def is_due (now : Nat) (e : GrammarEntry) : Bool :=
  (match e.next_review with
   | some t => decide (t ≤ now)
   | none => false)
  && !(e.srs_stage == SRSStage.BURNED)

/-- The sort key of ORDER BY next_review (ascending). -/
def dueLe (a b : GrammarEntry) : Prop :=
  a.next_review.getD 0 ≤ b.next_review.getD 0

instance : DecidableRel dueLe := fun a b =>
  inferInstanceAs (Decidable (a.next_review.getD 0 ≤ b.next_review.getD 0))

instance : IsTotal GrammarEntry dueLe :=
  ⟨fun a b => Nat.le_total (a.next_review.getD 0) (b.next_review.getD 0)⟩

instance : IsTrans GrammarEntry dueLe :=
  ⟨fun _ _ _ hab hbc => Nat.le_trans hab hbc⟩

/-- GrammarDatabase.get_due_reviews (models.py lines 222-231): SELECT
rows satisfying the due condition, ORDER BY next_review ascending. -/
def get_due_reviews (store : List GrammarEntry) (now : Nat) :
    List GrammarEntry :=
  List.insertionSort dueLe (store.filter (is_due now))

/-- GrammarDatabase.get_entries_by_lesson_status (models.py lines
241-247): SELECT ... WHERE lesson_status = ? ORDER BY id. -/
def get_entries_by_lesson_status (store : List GrammarEntry)
    (status : LessonStatus) : List GrammarEntry :=
  store.filter fun e => e.lesson_status == status

/-- The per-entry mutation of the start_lessons loop (models.py lines
262-264): mark the entry AVAILABLE and due immediately. -/
def makeAvailable (now : Nat) (e : GrammarEntry) : GrammarEntry :=
  { e with lesson_status := LessonStatus.AVAILABLE,
           next_review := some now }

/-- GrammarDatabase.start_lessons (models.py lines 249-267): select up
to limit NOT_STARTED rows in id order, mark each AVAILABLE and due now,
persist each with update_entry, and return the mutated entries.
Returns the mutated entries together with the resulting store. -/
def start_lessons (store : List GrammarEntry) (limit : Nat) (now : Nat) :
    List GrammarEntry × List GrammarEntry :=
  let entries :=
    (store.filter fun e => e.lesson_status == LessonStatus.NOT_STARTED).take
      limit
  let entries := entries.map (makeAvailable now)
  (entries, entries.foldl update_entry store)

/-- list(LessonStatus): the members in declaration order. -/
def lessonStatusList : List LessonStatus :=
  [.NOT_STARTED, .AVAILABLE, .IN_PROGRESS]

/-- GrammarDatabase.get_lesson_summary (models.py lines 269-281): a
dict keyed by every status value, initialised to 0 and overwritten by
the GROUP BY counts, i.e. each status value maps to the number of rows
holding it. -/
def get_lesson_summary (store : List GrammarEntry) :
    List (String × Nat) :=
  lessonStatusList.map fun status =>
    (status.value,
     (store.filter fun e => e.lesson_status == status).length)

/-- The per-entry body of SettingsWidget.reset_all_progress (main.py
lines 424-431). -/
def resetEntry (e : GrammarEntry) : GrammarEntry :=
  { e with
      lesson_status := LessonStatus.NOT_STARTED,
      srs_stage := SRSStage.APPRENTICE_1,
      next_review := none,
      correct_answers := 0,
      incorrect_answers := 0,
      last_reviewed := none }

/-- SettingsWidget.reset_all_progress (main.py lines 415-435): iterate
over the snapshot of all entries, reset each and persist it. -/
def reset_all_progress (store : List GrammarEntry) : List GrammarEntry :=
  store.foldl (fun acc e => update_entry acc (resetEntry e)) store

/-- JustRememberApp.make_all_due (main.py lines 852-872): iterate over
the snapshot of all entries and, for every AVAILABLE or IN_PROGRESS
entry that is not BURNED, set next_review to now and persist it. -/
def make_all_due (store : List GrammarEntry) (now : Nat) :
    List GrammarEntry :=
  store.foldl
    (fun acc e =>
      if (e.lesson_status = LessonStatus.AVAILABLE ∨
          e.lesson_status = LessonStatus.IN_PROGRESS) ∧
         e.srs_stage ≠ SRSStage.BURNED then
        update_entry acc { e with next_review := some now }
      else
        acc)
    store

/-- The GrammarEntry built by parse_grammar_file (models.py lines
386-399) once the database has assigned it an id: content fields are
whatever the import heuristics produced, lesson_status is NOT_STARTED,
next_review is unset, and the dataclass defaults give srs_stage
APPRENTICE_1, zero counters and no last_reviewed. -/
def mkImportedEntry (entryId : Nat) (grammar grammar_kana usage meaning
    example1_ja example1_en example2_ja example2_en note : String)
    (learned_date : Nat) : GrammarEntry :=
  { id := entryId,
    grammar := grammar,
    grammar_kana := grammar_kana,
    usage := usage,
    meaning := meaning,
    example1_ja := example1_ja,
    example1_en := example1_en,
    example2_ja := example2_ja,
    example2_en := example2_en,
    note := note,
    learned_date := some learned_date,
    lesson_status := LessonStatus.NOT_STARTED,
    next_review := none }

/-- A stored row of the grammar_entries table in the 17-column schema
(models.py lines 115-135): TEXT columns other than grammar are
nullable, timestamp columns are modelled pre-parsed as hours. -/
structure Row where
  id : Nat
  grammar : String
  grammar_kana : Option String
  usage : Option String
  meaning : Option String
  example1_ja : Option String
  example1_en : Option String
  example2_ja : Option String
  example2_en : Option String
  note : Option String
  learned_date : Option Nat
  srs_stage : Option String
  next_review : Option Nat
  correct_answers : Nat
  incorrect_answers : Nat
  last_reviewed : Option Nat
  lesson_status : Option String
deriving DecidableEq, Repr

/-- SRSStage(s): look the string up among the member values, as the
Python enum constructor does, failing on anything unrecognized. -/
def stageFromValue (s : String) : Option SRSStage :=
  stageList.find? fun st => st.value == s

/-- LessonStatus(s): look the string up among the member values. -/
def statusFromValue (s : String) : Option LessonStatus :=
  lessonStatusList.find? fun st => st.value == s

/-- GrammarDatabase._row_to_entry (models.py lines 298-336) on a
17-column row: a NULL or empty lesson_status column (Python falsiness)
is replaced by the string In Progress before enum conversion; the
SRSStage and LessonStatus enum constructors raise ValueError on any
unrecognized string, modelled as Except.error. -/
def _row_to_entry (row : Row) : Except String GrammarEntry :=
  let lesson_status_value :=
    match row.lesson_status with
    | some s => if s = "" then "In Progress" else s
    | none => "In Progress"
  match row.srs_stage with
  | none => Except.error "None is not a valid SRSStage"
  | some s =>
    match stageFromValue s with
    | none => Except.error (s ++ " is not a valid SRSStage")
    | some stage =>
      match statusFromValue lesson_status_value with
      | none =>
        Except.error (lesson_status_value ++ " is not a valid LessonStatus")
      | some status =>
        Except.ok
          { id := row.id,
            grammar := row.grammar,
            grammar_kana := row.grammar_kana.getD "",
            usage := row.usage.getD "",
            meaning := row.meaning.getD "",
            example1_ja := row.example1_ja.getD "",
            example1_en := row.example1_en.getD "",
            example2_ja := row.example2_ja.getD "",
            example2_en := row.example2_en.getD "",
            note := row.note.getD "",
            learned_date := row.learned_date,
            srs_stage := stage,
            lesson_status := status,
            next_review := row.next_review,
            correct_answers := row.correct_answers,
            incorrect_answers := row.incorrect_answers,
            last_reviewed := row.last_reviewed }

/-- Store states reachable by the public operations of the
application: starting from an empty table, ingestion of a parsed entry
(parse_grammar_file + add_entry), start_lessons, recording a review
outcome on a session entry (handle_review_completed in main.py lines
803-814, whose session entries are due entries filtered to AVAILABLE or
IN_PROGRESS, main.py lines 748-752 and 766-767), reset_all_progress,
and make_all_due. -/
inductive Reachable : List GrammarEntry → Prop where
  | empty : Reachable []
  | ingest (store : List GrammarEntry) (entryId : Nat)
      (g gk u m e1j e1e e2j e2e n : String) (ld : Nat) :
      Reachable store →
      Reachable (store ++ [mkImportedEntry entryId g gk u m e1j e1e e2j e2e n ld])
  | startLessons (store : List GrammarEntry) (limit now : Nat) :
      Reachable store →
      Reachable (start_lessons store limit now).2
  | review (store : List GrammarEntry) (e : GrammarEntry) (correct : Bool)
      (now : Nat) :
      Reachable store →
      (e.lesson_status = LessonStatus.AVAILABLE ∨
       e.lesson_status = LessonStatus.IN_PROGRESS) →
      Reachable (update_entry store (update_progress e correct now))
  | reset (store : List GrammarEntry) :
      Reachable store →
      Reachable (reset_all_progress store)
  | makeDue (store : List GrammarEntry) (now : Nat) :
      Reachable store →
      Reachable (make_all_due store now)

/-- The item-level store invariant checked by claim C7, strengthened
with the auxiliary fact (needed for the induction) that NOT_STARTED
entries still sit at the initial stage. -/
def Inv (e : GrammarEntry) : Prop :=
  (e.next_review = none ↔
    (e.srs_stage = SRSStage.BURNED ∨
     e.lesson_status = LessonStatus.NOT_STARTED)) ∧
  (e.lesson_status = LessonStatus.NOT_STARTED →
    e.srs_stage = SRSStage.APPRENTICE_1)

/-- A fresh entry with every field at its dataclass default. -/
def freshEntry : GrammarEntry := {}

/-- A pathological stored state: a NOT_STARTED entry whose next_review
column is nevertheless set (and already due). -/
def notStartedDue : GrammarEntry :=
  { id := 1, lesson_status := LessonStatus.NOT_STARTED,
    next_review := some 0 }

/-- An AVAILABLE entry that is due at time 0. -/
def availableDue : GrammarEntry :=
  { id := 1, lesson_status := LessonStatus.AVAILABLE,
    next_review := some 0 }

/-- A stored entry with id 1. -/
def entryOne : GrammarEntry := { id := 1 }

/-- An entry whose id 2 is absent from the one-entry store. -/
def entryTwo : GrammarEntry := { id := 2, grammar := "absent" }

/-- A NOT_STARTED entry with a given id. -/
def demoEntry (i : Nat) : GrammarEntry := { id := i }

/-- A store of five NOT_STARTED entries with ids 1..5. -/
def demoStore : List GrammarEntry :=
  [demoEntry 1, demoEntry 2, demoEntry 3, demoEntry 4, demoEntry 5]

/-- A store with two due IN_PROGRESS entries, out of key order. -/
def dueStore : List GrammarEntry :=
  [{ id := 1, lesson_status := LessonStatus.IN_PROGRESS,
     next_review := some 9 },
   { id := 2, lesson_status := LessonStatus.IN_PROGRESS,
     next_review := some 3 }]

/-- A store of three entries with assorted progress, for the reset
witness. -/
def resetStore : List GrammarEntry :=
  [{ id := 1, lesson_status := LessonStatus.IN_PROGRESS,
     srs_stage := SRSStage.GURU_1, next_review := some 7,
     correct_answers := 5, incorrect_answers := 2, last_reviewed := some 3 },
   { id := 2, lesson_status := LessonStatus.AVAILABLE,
     next_review := some 1 },
   { id := 3 }]

/-- A stored row whose lesson_status column is NULL but whose other
columns are well-formed. -/
def demoRow : Row :=
  { id := 1, grammar := "X", grammar_kana := none, usage := none,
    meaning := none, example1_ja := none, example1_en := none,
    example2_ja := none, example2_en := none, note := none,
    learned_date := none, srs_stage := some "Apprentice I",
    next_review := none, correct_answers := 0, incorrect_answers := 0,
    last_reviewed := none, lesson_status := none }

/-- A freshly imported entry used to exhibit a reachable store. -/
def c7Entry : GrammarEntry :=
  mkImportedEntry 1 "X" "X" "" "" "" "" "" "" "" 0

theorem mem_update_entry {store : List GrammarEntry} {e x : GrammarEntry}
    (hx : x ∈ update_entry store e) :
    x = e ∨ (x ∈ store ∧ x.id ≠ e.id) := by
  rcases List.mem_map.mp hx with ⟨a, ha, hfa⟩
  by_cases hid : a.id = e.id
  · left
    rw [← hfa]
    simp [hid]
  · right
    have hxa : x = a := by rw [← hfa]; simp [hid]
    rw [hxa]
    exact ⟨ha, hid⟩

theorem update_entry_map_id (store : List GrammarEntry)
    (e : GrammarEntry) :
    (update_entry store e).map (·.id) = store.map (·.id) := by
  induction store with
  | nil => rfl
  | cons a t ih =>
    simp only [update_entry, List.map_cons, List.cons.injEq] at *
    exact ⟨by by_cases h : a.id = e.id <;> simp [h], ih⟩

theorem mem_update_entry_self {store : List GrammarEntry}
    {e : GrammarEntry} (h : e.id ∈ store.map (·.id)) :
    e ∈ update_entry store e := by
  rcases List.mem_map.mp h with ⟨a, ha, hid⟩
  exact List.mem_map.mpr ⟨a, ha, by simp [hid]⟩

theorem mem_update_entry_of_ne {store : List GrammarEntry}
    {e x : GrammarEntry} (hx : x ∈ store) (hne : x.id ≠ e.id) :
    x ∈ update_entry store e :=
  List.mem_map.mpr ⟨x, hx, by simp [hne]⟩

theorem mem_foldl_update_subset :
    ∀ (l acc : List GrammarEntry) (x : GrammarEntry),
      x ∈ l.foldl update_entry acc → x ∈ l ∨ x ∈ acc := by
  intro l
  induction l with
  | nil =>
    intro acc x hx
    right
    exact hx
  | cons a t ih =>
    intro acc x hx
    simp only [List.foldl_cons] at hx
    rcases ih _ _ hx with h | h
    · left
      exact List.mem_cons_of_mem _ h
    · rcases mem_update_entry h with h | ⟨h, _⟩
      · left
        rw [h]
        exact List.mem_cons_self a t
      · right
        exact h

theorem foldl_update_map_id :
    ∀ (l acc : List GrammarEntry),
      (l.foldl update_entry acc).map (·.id) = acc.map (·.id) := by
  intro l
  induction l with
  | nil =>
    intro acc
    rfl
  | cons a t ih =>
    intro acc
    simp only [List.foldl_cons]
    rw [ih, update_entry_map_id]

theorem mem_foldl_update_stable :
    ∀ (l acc : List GrammarEntry) (e : GrammarEntry),
      e ∈ acc → (∀ b ∈ l, e.id ≠ b.id) →
      e ∈ l.foldl update_entry acc := by
  intro l
  induction l with
  | nil =>
    intro acc e he _
    exact he
  | cons a t ih =>
    intro acc e he hb
    simp only [List.foldl_cons]
    exact ih _ e
      (mem_update_entry_of_ne he (hb a (List.mem_cons_self a t)))
      (fun b hbt => hb b (List.mem_cons_of_mem a hbt))

theorem mem_foldl_update :
    ∀ (l acc : List GrammarEntry) (e : GrammarEntry),
      e ∈ l → l.Pairwise (fun a b => a.id ≠ b.id) →
      e.id ∈ acc.map (·.id) →
      e ∈ l.foldl update_entry acc := by
  intro l
  induction l with
  | nil =>
    intro acc e he
    exact absurd he (List.not_mem_nil e)
  | cons a t ih =>
    intro acc e he hpw hid
    simp only [List.foldl_cons]
    rcases List.pairwise_cons.mp hpw with ⟨hane, hpt⟩
    rcases List.mem_cons.mp he with rfl | he
    · exact mem_foldl_update_stable t _ e (mem_update_entry_self hid)
        (fun b hb => hane b hb)
    · exact ih _ e he hpt (by rw [update_entry_map_id]; exact hid)

theorem mem_foldl_update_comp (g : GrammarEntry → GrammarEntry) :
    ∀ (l acc : List GrammarEntry) (x : GrammarEntry),
      x ∈ l.foldl (fun a e => update_entry a (g e)) acc →
      (∃ e ∈ l, x = g e) ∨
        (x ∈ acc ∧ ∀ e ∈ l, x.id ≠ (g e).id) := by
  intro l
  induction l with
  | nil =>
    intro acc x hx
    right
    exact ⟨hx, by simp⟩
  | cons a t ih =>
    intro acc x hx
    simp only [List.foldl_cons] at hx
    rcases ih _ x hx with ⟨e, he, hxe⟩ | ⟨hmem, hids⟩
    · exact Or.inl ⟨e, List.mem_cons_of_mem a he, hxe⟩
    · rcases mem_update_entry hmem with h | ⟨h, hne⟩
      · exact Or.inl ⟨a, List.mem_cons_self a t, h⟩
      · refine Or.inr ⟨h, ?_⟩
        intro e hel
        rcases List.mem_cons.mp hel with rfl | hel
        · exact hne
        · exact hids e hel

theorem mem_foldl_cond_update (P : GrammarEntry → Prop) [DecidablePred P]
    (g : GrammarEntry → GrammarEntry) :
    ∀ (l acc : List GrammarEntry) (x : GrammarEntry),
      x ∈ l.foldl
        (fun acc e => if P e then update_entry acc (g e) else acc) acc →
      (∃ e, P e ∧ x = g e) ∨ x ∈ acc := by
  intro l
  induction l with
  | nil =>
    intro acc x hx
    right
    exact hx
  | cons a t ih =>
    intro acc x hx
    simp only [List.foldl_cons] at hx
    rcases ih _ x hx with h | h
    · exact Or.inl h
    · by_cases hp : P a
      · rw [if_pos hp] at h
        rcases mem_update_entry h with h | ⟨h, _⟩
        · exact Or.inl ⟨a, hp, h⟩
        · exact Or.inr h
      · rw [if_neg hp] at h
        exact Or.inr h

theorem calc_next_review_cases (s : SRSStage) (now : Nat) :
    (s = SRSStage.BURNED → calculate_next_review s now = none) ∧
    (s ≠ SRSStage.BURNED →
      ∃ h, INTERVALS s = some h ∧
        calculate_next_review s now = some (now + h)) := by
  cases s <;> simp [calculate_next_review, INTERVALS]

theorem update_progress_spec (e : GrammarEntry) (correct : Bool)
    (now : Nat) :
    (update_progress e correct now).srs_stage =
      get_next_stage e.srs_stage correct ∧
    (update_progress e correct now).next_review =
      calculate_next_review (get_next_stage e.srs_stage correct) now ∧
    (update_progress e correct now).last_reviewed = some now ∧
    (update_progress e correct now).lesson_status =
      (if e.lesson_status = LessonStatus.AVAILABLE then
        LessonStatus.IN_PROGRESS
      else e.lesson_status) ∧
    (update_progress e correct now).correct_answers =
      e.correct_answers + (if correct then 1 else 0) ∧
    (update_progress e correct now).incorrect_answers =
      e.incorrect_answers + (if correct then 0 else 1) ∧
    (update_progress e correct now).id = e.id := by
  cases correct <;>
    by_cases h : e.lesson_status = LessonStatus.AVAILABLE <;>
      simp [update_progress, h]

theorem Inv_update_progress (e : GrammarEntry) (correct : Bool)
    (now : Nat)
    (h : e.lesson_status = LessonStatus.AVAILABLE ∨
         e.lesson_status = LessonStatus.IN_PROGRESS) :
    Inv (update_progress e correct now) := by
  obtain ⟨hstage, hnext, _, hstatus, _⟩ := update_progress_spec e correct now
  have hst : (update_progress e correct now).lesson_status =
      LessonStatus.IN_PROGRESS := by
    rcases h with h | h <;> rw [hstatus, h] <;> simp
  constructor
  · rw [hnext, hst, hstage]
    by_cases hb : get_next_stage e.srs_stage correct = SRSStage.BURNED
    · rw [(calc_next_review_cases _ now).1 hb]
      simp [hb]
    · obtain ⟨hh, _, hc⟩ := (calc_next_review_cases _ now).2 hb
      rw [hc]
      simp [hb]
  · intro hns
    rw [hst] at hns
    exact absurd hns (by simp)

/-- C1: for every stage s, get_next_stage with a correct outcome
returns the stage at the position immediately after s in the fixed
order Apprentice I..Burned when s is not Burned, returns s unchanged
when s is Burned, and with an incorrect outcome returns Apprentice I
regardless of s. -/
theorem C1_next_stage (s : SRSStage) :
    (s ≠ SRSStage.BURNED →
      stageList[stageIdx s]? = some s ∧
      stageList[stageIdx s + 1]? = some (get_next_stage s true)) ∧
    get_next_stage SRSStage.BURNED true = SRSStage.BURNED ∧
    get_next_stage s false = SRSStage.APPRENTICE_1 := by
  revert s
  decide

theorem C1_next_stage_witness :
    stageList[stageIdx SRSStage.GURU_1 + 1]? =
      some (get_next_stage SRSStage.GURU_1 true) :=
  ((C1_next_stage SRSStage.GURU_1).1 (by decide)).2

/-- C2: update_progress stamps last_reviewed with the review time and,
when the resulting stage is not Burned, schedules next_review exactly
the stage interval (4, 8, 24, 48, 168, 336, 720 or 2880 hours, per
INTERVALS) after last_reviewed; when the resulting stage is Burned,
next_review is unset. -/
theorem C2_interval (e : GrammarEntry) (correct : Bool) (now : Nat) :
    ((update_progress e correct now).srs_stage = SRSStage.BURNED →
      (update_progress e correct now).next_review = none) ∧
    ((update_progress e correct now).srs_stage ≠ SRSStage.BURNED →
      ∃ t h, (update_progress e correct now).next_review = some t ∧
        (update_progress e correct now).last_reviewed = some now ∧
        INTERVALS (update_progress e correct now).srs_stage = some h ∧
        t - now = h) := by
  obtain ⟨hstage, hnext, hlast, _⟩ := update_progress_spec e correct now
  constructor
  · intro hb
    rw [hstage] at hb
    rw [hnext, (calc_next_review_cases _ now).1 hb]
  · intro hb
    rw [hstage] at hb
    obtain ⟨h, hi, hc⟩ := (calc_next_review_cases _ now).2 hb
    exact ⟨now + h, h, by rw [hnext, hc], hlast,
      by rw [hstage]; exact hi, by omega⟩

theorem C2_interval_witness :
    ∃ t h, (update_progress freshEntry true 100).next_review = some t ∧
      (update_progress freshEntry true 100).last_reviewed = some 100 ∧
      INTERVALS (update_progress freshEntry true 100).srs_stage =
        some h ∧
      t - 100 = h :=
  (C2_interval freshEntry true 100).2 (by decide)

/-- C5: update_progress on an Available Apprentice I entry with zero
counters and a correct answer yields In Progress, Apprentice II,
correct count 1 and incorrect count 0; each outcome increments exactly
one counter by exactly one, and the Available-to-InProgress transition
happens exactly when the status was Available (hence exactly once, on
the first recorded outcome). -/
theorem C5_first_outcome (e : GrammarEntry) (correct : Bool)
    (now : Nat) :
    ((e.lesson_status = LessonStatus.AVAILABLE ∧
      e.srs_stage = SRSStage.APPRENTICE_1 ∧
      e.correct_answers = 0 ∧ e.incorrect_answers = 0) →
      ((update_progress e true now).lesson_status =
        LessonStatus.IN_PROGRESS ∧
       (update_progress e true now).srs_stage = SRSStage.APPRENTICE_2 ∧
       (update_progress e true now).correct_answers = 1 ∧
       (update_progress e true now).incorrect_answers = 0)) ∧
    ((update_progress e correct now).correct_answers =
      e.correct_answers + (if correct then 1 else 0)) ∧
    ((update_progress e correct now).incorrect_answers =
      e.incorrect_answers + (if correct then 0 else 1)) ∧
    ((update_progress e correct now).lesson_status =
      (if e.lesson_status = LessonStatus.AVAILABLE then
        LessonStatus.IN_PROGRESS
      else e.lesson_status)) := by
  obtain ⟨_, _, _, hstatus, hca, hia, _⟩ :=
    update_progress_spec e correct now
  refine ⟨?_, hca, hia, hstatus⟩
  rintro ⟨hA, hS, hc0, hi0⟩
  obtain ⟨hstage', _, _, hstatus', hca', hia', _⟩ :=
    update_progress_spec e true now
  refine ⟨?_, ?_, ?_, ?_⟩
  · rw [hstatus', hA]
    simp
  · rw [hstage', hS]
    decide
  · rw [hca', hc0]
    simp
  · rw [hia', hi0]
    simp

theorem C5_first_outcome_witness :
    (update_progress availableDue true 0).lesson_status =
      LessonStatus.IN_PROGRESS ∧
    (update_progress availableDue true 0).srs_stage =
      SRSStage.APPRENTICE_2 ∧
    (update_progress availableDue true 0).correct_answers = 1 ∧
    (update_progress availableDue true 0).incorrect_answers = 0 :=
  (C5_first_outcome availableDue true 0).1 (by decide)

/-- C3 counterexample: the due query filters only on next_review and
srs_stage, so a NOT_STARTED entry whose next_review is set and past is
returned. -/
theorem C3_counterexample :
    notStartedDue.lesson_status = LessonStatus.NOT_STARTED ∧
    get_due_reviews [notStartedDue] 0 = [notStartedDue] := by
  constructor <;> decide

/-- C3 (amended): get_due_reviews performs no lesson-status filtering;
it returns no NOT_STARTED entry provided every NOT_STARTED entry in the
store has an unset next_review (the store invariant), but a NOT_STARTED
entry with a set, past next_review is returned. -/
theorem C3_amended (store : List GrammarEntry) (now : Nat)
    (hinv : ∀ e ∈ store,
      e.lesson_status = LessonStatus.NOT_STARTED →
        e.next_review = none) :
    ∀ e ∈ get_due_reviews store now,
      e.lesson_status ≠ LessonStatus.NOT_STARTED := by
  intro e he hns
  rw [get_due_reviews, List.mem_insertionSort] at he
  rcases List.mem_filter.mp he with ⟨hmem, hdue⟩
  have hnone := hinv e hmem hns
  simp [is_due, hnone] at hdue

theorem C3_amended_witness :
    availableDue.lesson_status ≠ LessonStatus.NOT_STARTED :=
  C3_amended [availableDue] 0 (by decide) availableDue (by decide)

/-- C6 counterexample: updating an entry whose id is absent from the
store completes without any error and leaves the store unchanged (the
SQL UPDATE matches no row), contradicting the claimed NotFoundError. -/
theorem C6_counterexample :
    entryTwo.id ∉ [entryOne].map (fun e => e.id) ∧
    update_entry [entryOne] entryTwo = [entryOne] := by
  constructor <;> decide

/-- C6 (amended): update_entry on an id absent from the store is a
silent no-op: it raises no error and returns the store unchanged. -/
theorem C6_amended (store : List GrammarEntry) (e : GrammarEntry)
    (h : ∀ x ∈ store, x.id ≠ e.id) :
    update_entry store e = store := by
  induction store with
  | nil => rfl
  | cons a t ih =>
    have ht := ih (fun x hx => h x (List.mem_cons_of_mem a hx))
    simp only [update_entry, List.map_cons] at *
    rw [if_neg (h a (List.mem_cons_self a t)), ht]

theorem C6_amended_witness :
    update_entry [entryOne] entryTwo = [entryOne] :=
  C6_amended [entryOne] entryTwo (by decide)

theorem is_due_iff (now : Nat) (e : GrammarEntry) :
    is_due now e = true ↔
      ((∃ t, e.next_review = some t ∧ t ≤ now) ∧
        e.srs_stage ≠ SRSStage.BURNED) := by
  cases hnr : e.next_review <;> simp [is_due, hnr]

/-- C8: get_due_reviews returns exactly the entries of the store whose
next_review is set and at most now and whose stage is not Burned,
ordered by ascending next_review; entries with unset next_review and
Burned entries are never returned. -/
theorem C8_due_query (store : List GrammarEntry) (now : Nat) :
    List.Perm (get_due_reviews store now) (store.filter (is_due now)) ∧
    List.Sorted dueLe (get_due_reviews store now) ∧
    (get_due_reviews store now).Pairwise
      (fun a b => ∀ ta tb, a.next_review = some ta →
        b.next_review = some tb → ta ≤ tb) ∧
    (∀ e, e ∈ get_due_reviews store now ↔
      (e ∈ store ∧ (∃ t, e.next_review = some t ∧ t ≤ now) ∧
        e.srs_stage ≠ SRSStage.BURNED)) := by
  have hsorted : List.Sorted dueLe (get_due_reviews store now) :=
    List.sorted_insertionSort dueLe _
  refine ⟨List.perm_insertionSort dueLe _, hsorted, ?_, ?_⟩
  · refine List.Pairwise.imp ?_ hsorted
    intro a b hab ta tb hta htb
    simpa [dueLe, hta, htb] using hab
  · intro e
    rw [get_due_reviews, List.mem_insertionSort, List.mem_filter]
    exact and_congr_right fun _ => is_due_iff now e

theorem C8_due_query_witness :
    List.Sorted dueLe (get_due_reviews dueStore 10) :=
  (C8_due_query dueStore 10).2.1

/-- C4: on an id-sorted store and a positive limit, start_lessons
selects the NOT_STARTED entries in ascending id order, at most limit of
them (all of them when fewer than limit exist, none when none exist),
marks each AVAILABLE with next_review set to now, persists each into
the resulting store without touching other entries or the id sequence,
and returns the selected entries in the same ascending-id order; in
particular on a store of five NOT_STARTED entries with ids 1..5,
start_lessons 3 returns ids 1,2,3 and a subsequent start_lessons 10 on
the resulting store returns ids 4,5. -/
theorem C4_start_lessons :
    (∀ (store : List GrammarEntry) (limit now : Nat),
      0 < limit →
      store.Pairwise (fun a b => a.id < b.id) →
      ((start_lessons store limit now).1.map (·.id) =
        ((store.filter fun e =>
            e.lesson_status == LessonStatus.NOT_STARTED).map
              (·.id)).take limit ∧
       (∀ e ∈ (start_lessons store limit now).1,
          e.lesson_status = LessonStatus.AVAILABLE ∧
          e.next_review = some now) ∧
       (start_lessons store limit now).1.Pairwise
         (fun a b => a.id < b.id) ∧
       (start_lessons store limit now).1.length =
         min limit
           (store.filter fun e =>
             e.lesson_status == LessonStatus.NOT_STARTED).length ∧
       (∀ e ∈ (start_lessons store limit now).1,
          e ∈ (start_lessons store limit now).2) ∧
       (∀ x ∈ (start_lessons store limit now).2,
          x ∈ (start_lessons store limit now).1 ∨ x ∈ store) ∧
       (start_lessons store limit now).2.map (·.id) =
         store.map (·.id))) ∧
    ((start_lessons demoStore 3 100).1.map (·.id) = [1, 2, 3] ∧
     (∀ e ∈ (start_lessons demoStore 3 100).1,
        e.lesson_status = LessonStatus.AVAILABLE ∧
        e.next_review = some 100) ∧
     (start_lessons (start_lessons demoStore 3 100).2 10 200).1.map
       (·.id) = [4, 5]) := by
  constructor
  · intro store limit now _ hpw
    have h1 : (start_lessons store limit now).1 =
        ((store.filter fun e =>
            e.lesson_status == LessonStatus.NOT_STARTED).take limit).map
          (makeAvailable now) := rfl
    have h2 : (start_lessons store limit now).2 =
        (start_lessons store limit now).1.foldl update_entry store := rfl
    have hsub : List.Sublist
        ((store.filter fun e =>
            e.lesson_status == LessonStatus.NOT_STARTED).take limit)
        store :=
      (List.take_sublist _ _).trans (List.filter_sublist _)
    have hpwsel : ((store.filter fun e =>
        e.lesson_status == LessonStatus.NOT_STARTED).take
          limit).Pairwise (fun a b => a.id < b.id) :=
      hpw.sublist hsub
    have hpw1 : (start_lessons store limit now).1.Pairwise
        (fun a b => a.id < b.id) := by
      rw [h1, List.pairwise_map]
      exact hpwsel
    refine ⟨?_, ?_, hpw1, ?_, ?_, ?_, ?_⟩
    · rw [h1, List.map_map,
        show ((·.id) ∘ makeAvailable now) =
          (fun e : GrammarEntry => e.id) from rfl,
        List.map_take]
    · intro e he
      rw [h1] at he
      rcases List.mem_map.mp he with ⟨a, _, rfl⟩
      exact ⟨rfl, rfl⟩
    · rw [h1, List.length_map, List.length_take]
    · intro e he
      rw [h2]
      have hne : (start_lessons store limit now).1.Pairwise
          (fun a b => a.id ≠ b.id) :=
        hpw1.imp Nat.ne_of_lt
      have hid : e.id ∈ store.map (·.id) := by
        rw [h1] at he
        rcases List.mem_map.mp he with ⟨a, ha, rfl⟩
        exact List.mem_map.mpr ⟨a, hsub.mem ha, rfl⟩
      exact mem_foldl_update _ store e he hne hid
    · intro x hx
      rw [h2] at hx
      exact mem_foldl_update_subset _ store x hx
    · rw [h2]
      exact foldl_update_map_id _ store
  · refine ⟨by decide, ?_, by decide⟩
    decide

theorem C4_start_lessons_witness :
    (start_lessons demoStore 3 100).2.map (·.id) =
      demoStore.map (·.id) :=
  (C4_start_lessons.1 demoStore 3 100 (by decide)
    (by decide)).2.2.2.2.2.2

theorem foldl_update_map_id_comp (g : GrammarEntry → GrammarEntry) :
    ∀ (l acc : List GrammarEntry),
      (l.foldl (fun a e => update_entry a (g e)) acc).map (·.id) =
        acc.map (·.id) := by
  intro l
  induction l with
  | nil =>
    intro acc
    rfl
  | cons a t ih =>
    intro acc
    simp only [List.foldl_cons]
    rw [ih, update_entry_map_id]

theorem inv_all {store : List GrammarEntry} (h : Reachable store) :
    ∀ e ∈ store, Inv e := by
  induction h with
  | empty =>
    intro e he
    exact absurd he (List.not_mem_nil e)
  | ingest s i g gk u m e1j e1e e2j e2e n ld _ ih =>
    intro e he
    rcases List.mem_append.mp he with he | he
    · exact ih e he
    · rw [List.mem_singleton] at he
      subst he
      constructor <;> simp [Inv, mkImportedEntry]
  | startLessons s limit now _ ih =>
    intro e he
    rcases mem_foldl_update_subset (start_lessons s limit now).1 s e he
      with h1 | h1
    · have hfst : (start_lessons s limit now).1 =
          ((s.filter fun x =>
              x.lesson_status == LessonStatus.NOT_STARTED).take
            limit).map (makeAvailable now) := rfl
      rw [hfst] at h1
      rcases List.mem_map.mp h1 with ⟨a, ha, rfl⟩
      have hasel := List.take_subset _ _ ha
      have hamem : a ∈ s := (List.filter_sublist _).mem hasel
      have hans : a.lesson_status = LessonStatus.NOT_STARTED := by
        have := (List.mem_filter.mp hasel).2
        simpa using this
      have hstage : a.srs_stage = SRSStage.APPRENTICE_1 :=
        (ih a hamem).2 hans
      constructor <;> simp [Inv, makeAvailable, hstage]
    · exact ih e h1
  | review s e c now _ hstat ih =>
    intro x hx
    rcases mem_update_entry hx with rfl | ⟨hx, _⟩
    · exact Inv_update_progress e c now hstat
    · exact ih x hx
  | reset s _ ih =>
    intro x hx
    simp only [reset_all_progress] at hx
    rcases mem_foldl_update_comp resetEntry s s x hx with
      ⟨a, _, rfl⟩ | ⟨hmem, hids⟩
    · constructor <;> simp [Inv, resetEntry]
    · exact absurd rfl (hids x hmem)
  | makeDue s now _ ih =>
    intro x hx
    simp only [make_all_due] at hx
    rcases mem_foldl_cond_update
        (fun e => (e.lesson_status = LessonStatus.AVAILABLE ∨
            e.lesson_status = LessonStatus.IN_PROGRESS) ∧
          e.srs_stage ≠ SRSStage.BURNED)
        (fun e => { e with next_review := some now }) s s x hx with
      ⟨a, ⟨hstat, hburn⟩, rfl⟩ | hmem
    · constructor
      · rcases hstat with hstat | hstat <;> simp [Inv, hburn, hstat]
      · intro hc
        rcases hstat with hstat | hstat <;> simp [hstat] at hc
    · exact ih x hmem

/-- C7: in every store state reachable by the public operations
(ingestion, start_lessons, recording a review outcome and persisting
it, reset_all_progress, make_all_due), every entry has next_review
unset exactly when its stage is Burned or its lesson status is
Not Started; in particular Burned entries always have unset
next_review. -/
theorem C7_invariant (store : List GrammarEntry) (h : Reachable store) :
    ∀ e ∈ store,
      (e.next_review = none ↔
        (e.srs_stage = SRSStage.BURNED ∨
         e.lesson_status = LessonStatus.NOT_STARTED)) :=
  fun e he => (inv_all h e he).1

theorem C7_invariant_witness :
    c7Entry.next_review = none ↔
      (c7Entry.srs_stage = SRSStage.BURNED ∨
       c7Entry.lesson_status = LessonStatus.NOT_STARTED) :=
  C7_invariant ([] ++ [c7Entry])
    (Reachable.ingest [] 1 "X" "X" "" "" "" "" "" "" "" 0
      Reachable.empty)
    c7Entry (by decide)

/-- C9: after reset_all_progress, every entry is NOT_STARTED at
Apprentice I with unset next_review, zero counters and unset
last_reviewed; the number of entries is preserved, and the lesson
summary reports every entry under Not Started with zeroes for the
other two statuses, all three status keys present. -/
theorem C9_reset (store : List GrammarEntry) :
    (∀ e ∈ reset_all_progress store,
       e.lesson_status = LessonStatus.NOT_STARTED ∧
       e.srs_stage = SRSStage.APPRENTICE_1 ∧
       e.next_review = none ∧
       e.correct_answers = 0 ∧
       e.incorrect_answers = 0 ∧
       e.last_reviewed = none) ∧
    (reset_all_progress store).length = store.length ∧
    get_lesson_summary (reset_all_progress store) =
      [("Not Started", store.length), ("Available", 0),
       ("In Progress", 0)] := by
  have hmem : ∀ e ∈ reset_all_progress store,
      e.lesson_status = LessonStatus.NOT_STARTED ∧
      e.srs_stage = SRSStage.APPRENTICE_1 ∧
      e.next_review = none ∧
      e.correct_answers = 0 ∧
      e.incorrect_answers = 0 ∧
      e.last_reviewed = none := by
    intro x hx
    simp only [reset_all_progress] at hx
    rcases mem_foldl_update_comp resetEntry store store x hx with
      ⟨a, _, rfl⟩ | ⟨hm, hids⟩
    · exact ⟨rfl, rfl, rfl, rfl, rfl, rfl⟩
    · exact absurd rfl (hids x hm)
  have hlen : (reset_all_progress store).length = store.length := by
    have h := congrArg List.length
      (foldl_update_map_id_comp resetEntry store store)
    simpa [reset_all_progress] using h
  have hall : (reset_all_progress store).filter
      (fun e => e.lesson_status == LessonStatus.NOT_STARTED) =
      reset_all_progress store :=
    List.filter_eq_self.mpr fun a ha => by simp [(hmem a ha).1]
  have hav : (reset_all_progress store).filter
      (fun e => e.lesson_status == LessonStatus.AVAILABLE) = [] :=
    List.filter_eq_nil_iff.mpr fun a ha => by simp [(hmem a ha).1]
  have hip : (reset_all_progress store).filter
      (fun e => e.lesson_status == LessonStatus.IN_PROGRESS) = [] :=
    List.filter_eq_nil_iff.mpr fun a ha => by simp [(hmem a ha).1]
  refine ⟨hmem, hlen, ?_⟩
  simp [get_lesson_summary, lessonStatusList, LessonStatus.value,
    hall, hav, hip, hlen]

theorem C9_reset_witness :
    get_lesson_summary (reset_all_progress resetStore) =
      [("Not Started", resetStore.length), ("Available", 0),
       ("In Progress", 0)] :=
  (C9_reset resetStore).2.2

/-- C10: _row_to_entry on a row whose lesson_status column is NULL or
empty (and whose srs_stage is recognized) succeeds and substitutes
In Progress for the lesson status; any other unrecognized
lesson_status string, and any unrecognized srs_stage string, makes
deserialization fail with an error. -/
theorem C10_row_to_entry :
    (∀ (row : Row) (s : String) (st : SRSStage),
      row.srs_stage = some s → stageFromValue s = some st →
      (row.lesson_status = none ∨ row.lesson_status = some "") →
      ∃ e, _row_to_entry row = Except.ok e ∧
        e.lesson_status = LessonStatus.IN_PROGRESS) ∧
    (∀ (row : Row) (s : String),
      row.lesson_status = some s → s ≠ "" → statusFromValue s = none →
      ∃ msg, _row_to_entry row = Except.error msg) ∧
    (∀ (row : Row) (s : String),
      row.srs_stage = some s → stageFromValue s = none →
      ∃ msg, _row_to_entry row = Except.error msg) := by
  refine ⟨?_, ?_, ?_⟩
  · intro row s st hrs hsv hls
    have hval : (match row.lesson_status with
        | some s => if s = "" then "In Progress" else s
        | none => "In Progress") = "In Progress" := by
      rcases hls with h | h <;> simp [h]
    have hstatus : statusFromValue "In Progress" =
        some LessonStatus.IN_PROGRESS := by decide
    simp only [_row_to_entry, hval, hrs, hsv, hstatus]
    exact ⟨_, rfl, rfl⟩
  · intro row s hls hne hsn
    have hval : (match row.lesson_status with
        | some s => if s = "" then "In Progress" else s
        | none => "In Progress") = s := by
      rw [hls]
      simp [hne]
    cases hrs : row.srs_stage with
    | none =>
      simp only [_row_to_entry, hrs]
      exact ⟨_, rfl⟩
    | some s' =>
      cases hsv : stageFromValue s' with
      | none =>
        simp only [_row_to_entry, hrs, hsv]
        exact ⟨_, rfl⟩
      | some st =>
        simp only [_row_to_entry, hval, hrs, hsv, hsn]
        exact ⟨_, rfl⟩
  · intro row s hrs hsv
    simp only [_row_to_entry, hrs, hsv]
    exact ⟨_, rfl⟩

theorem C10_row_to_entry_witness :
    ∃ e, _row_to_entry demoRow = Except.ok e ∧
      e.lesson_status = LessonStatus.IN_PROGRESS :=
  C10_row_to_entry.1 demoRow "Apprentice I" SRSStage.APPRENTICE_1 rfl
    (by decide) (Or.inl rfl)

end JustRemember
